import Mathlib

/-!
Verification development for the site-cloner asset-extraction and
site-traversal engine (src/site_cloner/main.py).

The Python source is shallowly embedded below.  Pure string processing
(the regular-expression scans, URL splitting, extension classification)
is re-implemented character by character over `List Char`; the HTML
parser is abstracted, as in the source, to a tree of nodes exposing
tags, attributes and text; network fetches are passed in as oracles
(`String → Except String …`); a Python statement that can raise is
embedded as an `Except String` value, so an uncaught exception surfaces
as `.error` and a `try/except` block becomes an explicit `match`.
Python's `set()` is modelled by `List.dedup` (membership and
duplicate-freeness are faithful; CPython's set iteration order is
unspecified).
-/

namespace SiteCloner

/-! ### Character and string helpers (Python `str` primitives) -/

/-- ASCII lower-casing of one character, as `str.lower` acts on the
ASCII range (all inputs used by the classifier are ASCII URLs). -/
def lowerChar (c : Char) : Char :=
  if 'A' ≤ c ∧ c ≤ 'Z' then Char.ofNat (c.toNat + 32) else c

/-- Python whitespace for `str.strip` / regex `\s` (ASCII range). -/
def isPySpace (c : Char) : Bool :=
  c = ' ' || c = '\t' || c = '\n' || c = '\r' || c = '\x0b' || c = '\x0c'

/-- `str.lower`. -/
def lowerStr (s : String) : String := ⟨s.data.map lowerChar⟩

/-- `needle` occurs as a leading run of `hay`. -/
def listLeads : List Char → List Char → Bool
  | [], _ => true
  | _ :: _, [] => false
  | a :: as, b :: bs => a = b && listLeads as bs

/-- Python `needle in hay` (substring containment). -/
def containsSub (hay needle : List Char) : Bool :=
  match hay with
  | [] => listLeads needle []
  | _ :: rest => listLeads needle hay || containsSub rest needle

/-- Python `s.startswith(p)`. -/
def strStartsWith (s p : String) : Bool := listLeads p.data s.data

/-- Python `ext in url.lower()` for one candidate extension. -/
def extInLower (ext url : String) : Bool :=
  containsSub (lowerStr url).data ext.data

/-- Python `s.strip()`. -/
def pyStrip (s : String) : String :=
  ⟨((s.data.dropWhile isPySpace).reverse.dropWhile isPySpace).reverse⟩

/-- Python `s.split(sep)` for a one-character separator (keeps empty
pieces, total, never returns an empty list). -/
def splitOnCharAux (sep : Char) (acc : List Char) : List Char → List (List Char)
  | [] => [acc.reverse]
  | c :: rest =>
    if c = sep then acc.reverse :: splitOnCharAux sep [] rest
    else splitOnCharAux sep (c :: acc) rest

def splitOnChar (sep : Char) (s : String) : List String :=
  (splitOnCharAux sep [] s.data).map (fun cs => ⟨cs⟩)

/-! ### URL parsing (`urllib.parse` as used at this repo's call sites)

`urllib.parse.urlsplit` extracts a scheme when the text before the first
`:` is a letter followed by letters, digits, `+`, `-`, `.`; it extracts
a network location after `//`, delimited by `/`, `?` or `#`; and it
raises `ValueError("Invalid IPv6 URL")` when that network location
contains `[` or `]` unbalanced.  The raising path is embedded as
`.error`; everything after scheme and netloc is kept as an opaque
remainder (the repository only ever reads `scheme` and `netloc`). -/

structure UrlParts where
  scheme : String
  netloc : String
  remainder : String
deriving Repr, DecidableEq

def isSchemeChar (c : Char) : Bool :=
  c.isAlpha || c.isDigit || c = '+' || c = '-' || c = '.'

/-- Split a leading `scheme:` off a URL, returning the (lower-cased)
scheme and the text after the colon; `none` when there is no valid
scheme, in which case the whole text is the remainder. -/
def splitSchemeAux (acc : List Char) : List Char → Option (List Char × List Char)
  | [] => none
  | c :: rest =>
    if c = ':' then
      match acc.reverse with
      | [] => none
      | a :: as => if a.isAlpha && as.all isSchemeChar then some ((a :: as).map lowerChar, rest) else none
    else splitSchemeAux (c :: acc) rest

def netlocDelim (c : Char) : Bool := c = '/' || c = '?' || c = '#'

def urlsplitModel (u : String) : Except String UrlParts :=
  let (scheme, rest) :=
    match splitSchemeAux [] u.data with
    | some (sc, r) => (sc, r)
    | none => ([], u.data)
  match rest with
  | '/' :: '/' :: tail =>
    let nl := tail.takeWhile (fun c => !netlocDelim c)
    if (nl.contains '[' && !nl.contains ']') || (nl.contains ']' && !nl.contains '[') then
      Except.error "Invalid IPv6 URL"
    else
      Except.ok ⟨⟨scheme⟩, ⟨nl⟩, ⟨tail.dropWhile (fun c => !netlocDelim c)⟩⟩
  | _ => Except.ok ⟨⟨scheme⟩, "", ⟨rest⟩⟩

/-- `get_base_url` (main.py:47-50): `f"{parsed.scheme}://{parsed.netloc}"`. -/
def get_base_url (url : String) : Except String String := do
  let p ← urlsplitModel url
  pure (p.scheme ++ "://" ++ p.netloc)

/-- `is_absolute_url` (main.py:53-55): `bool(urlparse(url).netloc)`. -/
def is_absolute_url (url : String) : Except String Bool := do
  let p ← urlsplitModel url
  pure (p.netloc ≠ "")

/-- RFC 3986 dot-segment elimination, as `urllib.parse.urljoin` applies
it when joining a relative reference against an origin base. -/
def dotSegsAux (acc : List String) : List String → List String
  | [] => acc.reverse
  | "." :: rest => dotSegsAux acc rest
  | ".." :: rest => dotSegsAux (acc.drop 1) rest
  | s :: rest => dotSegsAux (s :: acc) rest

def removeDotSegments (path : String) : String :=
  let segs := splitOnChar '/' path
  let body := dotSegsAux [] (segs.drop 1)
  let trail := match segs.getLast? with
    | some "." => [""]
    | some ".." => [""]
    | _ => []
  "/" ++ String.intercalate "/" (body ++ trail)

/-- `urllib.parse.urljoin(base, u)` restricted to this repository's call
sites, where `base` is always an origin `scheme://netloc` with an empty
path (every caller passes a `get_base_url` result).  An empty reference
returns the base; a reference carrying its own authority or scheme is
returned unchanged; otherwise the reference is a path reference and is
merged against the empty base path. -/
def urljoin (base u : String) : Except String String := do
  if u = "" then pure base
  else
    let pu ← urlsplitModel u
    if pu.netloc ≠ "" then pure u
    else if pu.scheme ≠ "" then pure u
    else do
      let pb ← urlsplitModel base
      let path := if strStartsWith u "/" then u else "/" ++ u
      pure (pb.scheme ++ "://" ++ pb.netloc ++ removeDotSegments path)

/-- `normalize_url` (main.py:58-62). -/
def normalize_url (base_url url : String) : Except String String := do
  if (← is_absolute_url url) then pure url else urljoin base_url url

/-! ### The stylesheet scanners (`re.findall` with the two patterns)

`re.findall(r'url\([\'"]?(.*?)[\'"]?\)', s)` scans left to right,
non-overlapping; at each `url(` the optional quote is consumed greedily,
the lazy group grows one character at a time (never across a newline,
since `.` does not match `\n`) until `['\"]?\)` closes the match.
`re.findall(r"@font-face\s*{[^}]+}", s)` matches a literal
`@font-face`, optional whitespace, `{`, one or more non-`}` characters
and the closing `}`.  Both are embedded as character scanners; the
outer loops carry the input length as explicit fuel (each emitted match
consumes at least one character, so this fuel is never exhausted before
the input is). -/

def isQuoteChar (c : Char) : Bool := c = '\'' || c = '"'

/-- Lazy search for the closing `['\"]?\)` of the `url(...)` pattern;
returns the captured group and the text after the match. -/
def urlGroupScan (acc : List Char) : List Char → Option (List Char × List Char)
  | [] => none
  | c :: rest =>
    if c = ')' then some (acc.reverse, rest)
    else if isQuoteChar c then
      match rest with
      | ')' :: r2 => some (acc.reverse, r2)
      | _ => urlGroupScan (c :: acc) rest
    else if c = '\n' then none
    else urlGroupScan (c :: acc) rest

/-- Try to match the `url(...)` pattern at the head of the text. -/
def matchUrlAt : List Char → Option (List Char × List Char)
  | 'u' :: 'r' :: 'l' :: '(' :: rest =>
    (match rest with
     | c :: r2 =>
       if isQuoteChar c then
         match urlGroupScan [] r2 with
         | some res => some res
         | none => urlGroupScan [] rest
       else urlGroupScan [] rest
     | [] => none)
  | _ => none

def findUrlsAux : Nat → List Char → List String
  | 0, _ => []
  | _ + 1, [] => []
  | fuel + 1, c :: rest =>
    match matchUrlAt (c :: rest) with
    | some (g, after) => (⟨g⟩ : String) :: findUrlsAux fuel after
    | none => findUrlsAux fuel rest

/-- All `url(...)` pattern groups of a text, in order of occurrence. -/
def findUrls (s : String) : List String := findUrlsAux s.data.length s.data

/-- Try to match `@font-face\s*{[^}]+}` at the head of the text,
returning the full matched block and the text after it. -/
def matchFontFaceAt (cs : List Char) : Option (List Char × List Char) :=
  match cs with
  | '@' :: 'f' :: 'o' :: 'n' :: 't' :: '-' :: 'f' :: 'a' :: 'c' :: 'e' :: rest =>
    let ws := rest.takeWhile isPySpace
    match rest.dropWhile isPySpace with
    | '{' :: r2 =>
      let inner := r2.takeWhile (fun c => c ≠ '}')
      if inner = [] then none
      else
        match r2.dropWhile (fun c => c ≠ '}') with
        | '}' :: r3 =>
          some ("@font-face".data ++ ws ++ '{' :: inner ++ ['}'], r3)
        | _ => none
    | _ => none
  | _ => none

def fontFaceAux : Nat → List Char → List String
  | 0, _ => []
  | _ + 1, [] => []
  | fuel + 1, c :: rest =>
    match matchFontFaceAt (c :: rest) with
    | some (b, after) => (⟨b⟩ : String) :: fontFaceAux fuel after
    | none => fontFaceAux fuel rest

/-- All `@font-face { ... }` blocks of a text (main.py:295). -/
def fontFaceBlocks (s : String) : List String := fontFaceAux s.data.length s.data

/-! ### `parse_css_for_assets` (main.py:254-305) -/

def fontExts : List String := [".woff", ".woff2", ".ttf", ".eot", ".otf"]

def imageExts : List String := [".png", ".jpg", ".jpeg", ".gif", ".svg", ".webp"]

/-- `any(ext in full_url.lower() for ext in exts)`. -/
def hasAnyExt (full_url : String) (exts : List String) : Bool :=
  exts.any (fun e => extInLower e full_url)

/-- Resolve a list of discovered references in order; the first
reference whose parse raises aborts the whole operation, as the
uncaught exception would in the Python loop. -/
def resolveAll (base_url : String) : List String → Except String (List String)
  | [] => Except.ok []
  | u :: rest => do
    let full ← normalize_url base_url u
    let fulls ← resolveAll base_url rest
    pure (full :: fulls)

/-- Step 1 of the scanner (main.py:282-292): each resolved `url(...)`
reference goes to fonts when the lowered URL contains a font extension,
otherwise to images — the `elif` image-extension test and the final
`else` both append to images. -/
def classifyStep1 (base_url : String) : List String → Except String (List String × List String)
  | [] => Except.ok ([], [])
  | u :: rest => do
    let full ← normalize_url base_url u
    let (fonts, images) ← classifyStep1 base_url rest
    if hasAnyExt full fontExts then pure (full :: fonts, images)
    else if hasAnyExt full imageExts then pure (fonts, full :: images)
    else pure (fonts, full :: images)

/-- Result dictionary of `parse_css_for_assets`: the success shape is
`{fonts, images}`, the fetch-failure shape is `{error, fonts: [], images: []}`. -/
structure CssAssets where
  error : Option String
  fonts : List String
  images : List String
deriving Repr, DecidableEq

/-- The scanning core of `parse_css_for_assets` once the stylesheet
text is in hand (main.py:275-305). -/
def parseCssCore (base_url css_content : String) : Except String CssAssets := do
  let url_patterns := findUrls css_content
  let (fonts1, images1) ← classifyStep1 base_url url_patterns
  let fonts2 ← resolveAll base_url ((fontFaceBlocks css_content).flatMap findUrls)
  pure ⟨none, (fonts1 ++ fonts2).dedup, images1.dedup⟩

/-- `parse_css_for_assets` (main.py:254-305).  `fetchText` is the
outcome `fetch_url(css_url)` would produce; only that fetch is guarded
by a `try/except`, the base-URL parse before it is not. -/
def parse_css_for_assets (fetchText : Except String String) (css_url : String)
    (css_content : Option String) : Except String CssAssets := do
  let base_url ← get_base_url css_url
  match css_content with
  | none =>
    match fetchText with
    | Except.error e => pure ⟨some e, [], []⟩
    | Except.ok s => parseCssCore base_url s
  | some s => parseCssCore base_url s

/-! ### Parsed markup (the BeautifulSoup tree, abstracted)

The HTML parser is an external collaborator; a parsed document is a
forest of element/text nodes.  `find_all` walks the tree in document
order (an element before its descendants); `.text` concatenates every
text node of a subtree; attribute lookup returns the first binding. -/

inductive Node where
  | elem (tag : String) (attrs : List (String × String)) (children : List Node)
  | text (s : String)
deriving Repr

def tagOf : Node → String
  | .elem t _ _ => t
  | .text _ => ""

def attrsOf : Node → List (String × String)
  | .elem _ a _ => a
  | .text _ => []

def childrenOf : Node → List Node
  | .elem _ _ c => c
  | .text _ => []

/-- Attribute lookup (`tag["k"]` / `"k" in tag.attrs`). -/
def attrOf (n : Node) (k : String) : Option String :=
  (attrsOf n).lookup k

def attrD (n : Node) (k : String) : String := (attrOf n k).getD ""

mutual

/-- Document-order listing of the elements of one node's subtree. -/
def allElemsN : Node → List Node
  | .text _ => []
  | .elem t a c => Node.elem t a c :: allElemsL c

/-- Document-order listing of the elements of a forest (`find_all`
without a filter). -/
def allElemsL : List Node → List Node
  | [] => []
  | n :: rest => allElemsN n ++ allElemsL rest

end

mutual

/-- `.text` of one node (concatenated text of the subtree). -/
def nodeText : Node → String
  | .text s => s
  | .elem _ _ c => nodeTextL c

def nodeTextL : List Node → String
  | [] => ""
  | n :: rest => nodeText n ++ nodeTextL rest

end

/-! ### `extract_assets` (main.py:94-168)

Each category is gathered by one loop of the source; the raw (not yet
resolved) references of each loop are named here so that the order and
multiplicity of discovery are explicit.  Resolution can raise on a
malformed reference, and nothing in `extract_assets` catches it. -/

/-- `<link rel="stylesheet" href=H>` hrefs (main.py:116-119). -/
def cssHrefs (doc : List Node) : List String :=
  (((allElemsL doc).filter
      (fun e => tagOf e == "link" && attrOf e "rel" == some "stylesheet")).filterMap
    (fun e => attrOf e "href"))

/-- `<script src=S>` sources (main.py:122-125). -/
def scriptSrcs (doc : List Node) : List String :=
  (((allElemsL doc).filter (fun e => tagOf e == "script")).filterMap
    (fun e => attrOf e "src"))

/-- The comma-separated `srcset` candidates: first space-delimited
token of each candidate, stripped (main.py:134-139). -/
def srcsetItems (s : String) : List String :=
  (splitOnChar ',' s).map
    (fun item => pyStrip (((splitOnChar ' ' (pyStrip item)).headD "")))

/-- One `<img>`'s raw references: `src` if present, then every
`srcset` candidate (main.py:128-139). -/
def imgRefsOf (e : Node) : List String :=
  (attrOf e "src").toList ++
    (match attrOf e "srcset" with
     | some s => srcsetItems s
     | none => [])

def imgRefs (doc : List Node) : List String :=
  ((allElemsL doc).filter (fun e => tagOf e == "img")).flatMap imgRefsOf

/-- `url(...)` references of every inline `style` attribute, in
document order (main.py:142-147). -/
def styleRefs (doc : List Node) : List String :=
  ((allElemsL doc).filter (fun e => (attrOf e "style").isSome)).flatMap
    (fun e => findUrls (attrD e "style"))

/-- `<link rel="preload" as="font" href=H>` hrefs (main.py:150-153). -/
def preloadFontHrefs (doc : List Node) : List String :=
  (((allElemsL doc).filter
      (fun e => tagOf e == "link" && attrOf e "rel" == some "preload"
        && (attrOf e "href").isSome && attrOf e "as" == some "font")).filterMap
    (fun e => attrOf e "href"))

/-- `<source src=S>` of each `<video>` (main.py:156-160). -/
def videoSrcs (doc : List Node) : List String :=
  ((allElemsL doc).filter (fun e => tagOf e == "video")).flatMap
    (fun v =>
      ((allElemsL (childrenOf v)).filter (fun s => tagOf s == "source")).filterMap
        (fun s => attrOf s "src"))

/-- `<iframe src=S>` sources (main.py:163-166). -/
def iframeSrcs (doc : List Node) : List String :=
  (((allElemsL doc).filter (fun e => tagOf e == "iframe")).filterMap
    (fun e => attrOf e "src"))

/-- The result dictionary of `extract_assets`, which the source
initialises with exactly the six category keys. -/
structure AssetBucket where
  css : List String
  javascript : List String
  images : List String
  fonts : List String
  videos : List String
  other : List String
deriving Repr, DecidableEq

/-- The six key/value pairs of the returned dictionary, in the order
the source initialises them. -/
def bucketPairs (b : AssetBucket) : List (String × List String) :=
  [("css", b.css), ("javascript", b.javascript), ("images", b.images),
   ("fonts", b.fonts), ("videos", b.videos), ("other", b.other)]

/-- `extract_assets` (main.py:94-168).  No `try/except` surrounds any
of this, so a URL-parse fault anywhere propagates to the caller. -/
def extract_assets (url : String) (doc : List Node) : Except String AssetBucket := do
  let base_url ← get_base_url url
  let css ← resolveAll base_url (cssHrefs doc)
  let javascript ← resolveAll base_url (scriptSrcs doc)
  let imagesA ← resolveAll base_url (imgRefs doc)
  let imagesB ← resolveAll base_url (styleRefs doc)
  let fonts ← resolveAll base_url (preloadFontHrefs doc)
  let videos ← resolveAll base_url (videoSrcs doc)
  let other ← resolveAll base_url (iframeSrcs doc)
  pure ⟨css, javascript, imagesA ++ imagesB, fonts, videos, other⟩

/-! ### `analyze_page_structure`: the metadata map (main.py:377-382)

Python dict assignment `d[k] = v` keeps the position of an existing
key and appends a fresh one; the map is built by folding that
assignment over every `<meta>` element in document order. -/

def dictInsert (d : List (String × String)) (k v : String) : List (String × String) :=
  match d with
  | [] => [(k, v)]
  | (k0, v0) :: rest =>
    if k0 = k then (k0, v) :: rest else (k0, v0) :: dictInsert rest k v

/-- One `<meta>`'s effect on the metadata dict: `name`+`content` wins
the `if`, `property`+`content` only reaches the `elif` branch. -/
def metaStep (md : List (String × String)) (attrs : List (String × String)) :
    List (String × String) :=
  match attrs.lookup "name", attrs.lookup "content" with
  | some n, some c => dictInsert md n c
  | _, _ =>
    match attrs.lookup "property", attrs.lookup "content" with
    | some p, some c => dictInsert md p c
    | _, _ => md

/-- The metadata map of `analyze_page_structure` (main.py:377-382). -/
def analyze_page_structure_metadata (doc : List Node) : List (String × String) :=
  (((allElemsL doc).filter (fun e => tagOf e == "meta")).map attrsOf).foldl metaStep []

/-! ### `fetch_page` (main.py:66-91)

The whole body sits inside `try/except Exception`, so the operation is
a total function of the fetch outcome: every failure is re-expressed as
the error payload with nulled fields. -/

structure HttpResponse where
  text : String
  status_code : Nat
  headers : List (String × String)
  url : String
deriving Repr, DecidableEq

inductive FetchPageResult where
  | success (content : String) (status_code : Nat)
      (headers : List (String × String)) (url : String)
  | failure (error : String) (url : String)
deriving Repr, DecidableEq

def fetch_page (fetched : Except String HttpResponse) (url : String) : FetchPageResult :=
  match fetched with
  | Except.ok r => .success r.text r.status_code r.headers r.url
  | Except.error e => .failure e url

/-! ### `create_site_map` (main.py:308-364)

The crawl is a recursion over `(url, depth)` sharing a visited set and
a sitemap list.  The embedding threads that state explicitly; the
`fetchLog` field is a ghost record of the URLs handed to `fetch_url`,
written exactly where line 327 fetches, so that at-most-once-fetch is
a statement about the final state.  Recursion depth is bounded by
`max_depth`, rendered as explicit fuel; `crawl_fuel_irrelevant` below
shows any fuel past the depth bound computes the same state.

One page's entry is appended to the sitemap before its links are
walked (line 337) and its `links` list is mutated during the walk, so
the final sitemap holds the parent entry, with its completed links,
before the child entries; the `except` of line 358 catches exceptions
raised while links are processed, after the page entry was appended,
and then appends a second, error entry for the same URL. -/

structure SiteLink where
  url : String
  text : String
deriving Repr, DecidableEq

inductive SitemapEntry where
  | page (url title : String) (links : List SiteLink)
  | failed (url error : String)
deriving Repr, DecidableEq

def entryUrl : SitemapEntry → String
  | .page u _ _ => u
  | .failed u _ => u

/-- The URL of a successful page entry. -/
def pageEntryUrl : SitemapEntry → Option String
  | .page u _ _ => some u
  | .failed _ _ => none

structure CrawlState where
  visited : List String
  sitemap : List SitemapEntry
  fetchLog : List String
deriving Repr, DecidableEq

/-- `soup.title.text if soup.title else "No title"` (main.py:333). -/
def titleOf (doc : List Node) : String :=
  match (allElemsL doc).filter (fun e => tagOf e == "title") with
  | [] => "No title"
  | t :: _ => nodeText t

/-- `soup.find_all("a", href=True)` as `(href, text)` pairs (main.py:340). -/
def anchorsOf (doc : List Node) : List (String × String) :=
  ((allElemsL doc).filter (fun e => tagOf e == "a" && (attrOf e "href").isSome)).map
    (fun e => (attrD e "href", nodeText e))

/-- Skip empty links, anchors, javascript and mailto (main.py:345). -/
def skipHref (href : String) : Bool :=
  href = "" || strStartsWith href "#" || strStartsWith href "javascript:"
    || strStartsWith href "mailto:"

/-- `link.text.strip() or "No text"` (main.py:354). -/
def linkTextOf (raw : String) : String :=
  if pyStrip raw = "" then "No text" else pyStrip raw

/-- The loop over one page's anchors (main.py:341-356): each surviving
same-origin link is appended to the page's `links` and visited
recursively (`recur`); a URL-parse fault aborts the loop, keeping the
links and child state accumulated so far and reporting the pending
exception. -/
def crawlLinks (recur : String → CrawlState → CrawlState) (base_url : String) :
    List (String × String) → List SiteLink → CrawlState →
      List SiteLink × CrawlState × Option String
  | [], links, st => (links, st, none)
  | (href, rawText) :: rest, links, st =>
    if skipHref href then crawlLinks recur base_url rest links st
    else
      match normalize_url base_url href with
      | Except.error e => (links, st, some e)
      | Except.ok full_url =>
        match get_base_url full_url with
        | Except.error e => (links, st, some e)
        | Except.ok fb =>
          if fb = base_url then
            crawlLinks recur base_url rest (links ++ [⟨full_url, linkTextOf rawText⟩])
              (recur full_url st)
          else crawlLinks recur base_url rest links st

/-- The recursive `crawl` (main.py:320-360), fuel-indexed.  The guard,
the visited insertion, the fetch, the entry appends and the link loop
follow the source line by line; the sitemap is written but never read,
so the child entries are collected apart and placed after the parent's
entry, which is where the in-place appends of the source put them. -/
def crawl (fetch : String → Except String (List Node)) (base_url : String)
    (max_depth : Nat) : Nat → String → Nat → CrawlState → CrawlState
  | 0, _, _, st => st
  | fuel + 1, current_url, depth, st =>
    if depth > max_depth ∨ current_url ∈ st.visited then st
    else
      let stV : CrawlState :=
        ⟨st.visited ++ [current_url], st.sitemap, st.fetchLog ++ [current_url]⟩
      match fetch current_url with
      | Except.error e => ⟨stV.visited, stV.sitemap ++ [.failed current_url e], stV.fetchLog⟩
      | Except.ok doc =>
        if depth < max_depth then
          match crawlLinks (fun u s => crawl fetch base_url max_depth fuel u (depth + 1) s)
              base_url (anchorsOf doc) [] ⟨stV.visited, [], stV.fetchLog⟩ with
          | (links, stC, exc) =>
            ⟨stC.visited,
              st.sitemap ++ [.page current_url (titleOf doc) links] ++ stC.sitemap ++
                (match exc with
                 | none => []
                 | some e => [.failed current_url e]),
              stC.fetchLog⟩
        else ⟨stV.visited, stV.sitemap ++ [.page current_url (titleOf doc) []], stV.fetchLog⟩

structure SiteMap where
  base_url : String
  pages : Nat
  sitemap : List SitemapEntry
deriving Repr, DecidableEq

/-- `create_site_map` (main.py:308-364): derive the base origin (not
guarded by any `try`), run `crawl(url, 1)` on fresh state, return
`{base_url, pages, sitemap}`. -/
def create_site_map (fetch : String → Except String (List Node)) (url : String)
    (max_depth : Nat) : Except String SiteMap := do
  let base_url ← get_base_url url
  let st := crawl fetch base_url max_depth (max_depth + 1) url 1 ⟨[], [], []⟩
  pure ⟨base_url, st.sitemap.length, st.sitemap⟩

/-! ### Notions used to state the claims -/

/-- The last path segment of a URL (its file name). -/
def fileNameOf (u : String) : String := (splitOnChar '/' u).getLastD ""

/-- The filename extension of a URL: the part of the file name from its
last dot on, in lower case; empty when the file name has no dot. -/
def lastExt (u : String) : String :=
  let parts := splitOnChar '.' (lowerStr (fileNameOf u))
  match parts with
  | [] => ""
  | [_] => ""
  | _ :: more => "." ++ more.getLastD ""

/-- The links list of a sitemap entry (a failed entry has none). -/
def entryLinks : SitemapEntry → List SiteLink
  | .page _ _ ls => ls
  | .failed _ _ => []

/-- Invariant of the crawl state: the fetch log is duplicate-free and
every fetched URL has been recorded in the visited set. -/
def CrawlInv (st : CrawlState) : Prop :=
  st.fetchLog.Nodup ∧ ∀ u ∈ st.fetchLog, u ∈ st.visited

/-- How one crawl step (or any compound of steps) relates the state it
receives to the state it returns: the visited set only grows, the fetch
log and the sitemap only grow at their ends, the page entries appended
correspond (in order, at most one each) to the URLs newly fetched, and
the invariant is preserved. -/
def CrawlStep (st st' : CrawlState) : Prop :=
  st.visited ⊆ st'.visited ∧
  ∃ dlog dmap, st'.fetchLog = st.fetchLog ++ dlog ∧ st'.sitemap = st.sitemap ++ dmap ∧
    (dmap.filterMap pageEntryUrl).Sublist dlog ∧ (CrawlInv st → CrawlInv st')

/-! ### Concrete inputs used by the counterexamples and witnesses -/

/-- A seed page with three same-origin links and one cross-origin link. -/
def seedThreeOne : List Node :=
  [Node.elem "html" []
    [Node.elem "title" [] [Node.text "Seed"],
     Node.elem "a" [("href", "/a")] [Node.text "A"],
     Node.elem "a" [("href", "/b")] [Node.text "B"],
     Node.elem "a" [("href", "/c")] [Node.text "C"],
     Node.elem "a" [("href", "http://o.com/x")] [Node.text "X"]]]

/-- A fetch oracle serving `seedThreeOne` at the seed URL. -/
def fetchThreeOne : String → Except String (List Node) :=
  fun u => if u = "http://s.com/" then Except.ok seedThreeOne else Except.error "404"

/-- A page whose only link has a malformed (unparseable) URL. -/
def pageBadLink : List Node :=
  [Node.elem "title" [] [Node.text "Bad"],
   Node.elem "a" [("href", "http://[")] [Node.text "broken"]]

def fetchBadLink : String → Except String (List Node) :=
  fun u => if u = "http://s.com/" then Except.ok pageBadLink else Except.error "404"

/-- A seed linking twice to `/a`; `/a` links to itself. -/
def pageTwiceS : List Node :=
  [Node.elem "title" [] [Node.text "S page"],
   Node.elem "a" [("href", "/a")] [Node.text "one"],
   Node.elem "a" [("href", "/a")] [Node.text "two"]]

def pageTwiceA : List Node :=
  [Node.elem "title" [] [Node.text "A page"],
   Node.elem "a" [("href", "/a")] [Node.text "self"]]

def fetchTwice : String → Except String (List Node) :=
  fun u =>
    if u = "http://s.com/" then Except.ok pageTwiceS
    else if u = "http://s.com/a" then Except.ok pageTwiceA
    else Except.error "404"

/-- A `<meta>` carrying a `name`, a `property` and a `content`. -/
def metaBothDoc : List Node :=
  [Node.elem "meta" [("name", "a"), ("property", "b"), ("content", "c")] []]

/-- A font-face block whose `url(...)` has an image filename extension
but also contains `.woff` in the name. -/
def cssFontFaceImage : String := "@font-face\x7bsrc:url(a.woff.png)\x7d"

/-- The spec's concrete example: a font-face block referencing `x.png`. -/
def cssFontFacePng : String := "@font-face\x7bsrc:url(x.png)\x7d"

/-- One `<img>` referencing `a.png`. -/
def imgPngDoc : List Node := [Node.elem "img" [("src", "a.png")] []]

/-! ## Helper lemmas -/

theorem exbind_ok {α β : Type} (a : α) (f : α → Except String β) :
    (Except.ok a >>= f) = f a := rfl

theorem exbind_err {α β : Type} (e : String) (f : α → Except String β) :
    ((Except.error e : Except String α) >>= f) = Except.error e := rfl

theorem exmap_ok {α β : Type} (a : α) (f : α → β) :
    (f <$> (Except.ok a : Except String α)) = Except.ok (f a) := rfl

theorem exmap_err {α β : Type} (e : String) (f : α → β) :
    (f <$> (Except.error e : Except String α)) = Except.error e := rfl

theorem expure {α : Type} (a : α) : (pure a : Except String α) = Except.ok a := rfl

theorem resolveAll_nil (b : String) : resolveAll b [] = Except.ok [] := rfl

theorem resolveAll_ok_cons {b u : String} {rest rs : List String}
    (h : resolveAll b (u :: rest) = Except.ok rs) :
    ∃ r rs', normalize_url b u = Except.ok r ∧ resolveAll b rest = Except.ok rs' ∧
      rs = r :: rs' := by
  cases h1 : normalize_url b u with
  | error e => simp [resolveAll, h1, exbind_err] at h
  | ok r =>
    cases h2 : resolveAll b rest with
    | error e => simp [resolveAll, h1, h2, exbind_ok, exmap_err] at h
    | ok rs' =>
      refine ⟨r, rs', rfl, rfl, ?_⟩
      simp [resolveAll, h1, h2, exbind_ok, exmap_ok] at h
      exact h.symm

theorem resolveAll_cons_ok {b u : String} {rest : List String} {r : String}
    {rs' : List String} (h1 : normalize_url b u = Except.ok r)
    (h2 : resolveAll b rest = Except.ok rs') :
    resolveAll b (u :: rest) = Except.ok (r :: rs') := by
  simp [resolveAll, h1, h2, exbind_ok, exmap_ok]

theorem resolveAll_append {b : String} {xs ys rx ry : List String}
    (hx : resolveAll b xs = Except.ok rx) (hy : resolveAll b ys = Except.ok ry) :
    resolveAll b (xs ++ ys) = Except.ok (rx ++ ry) := by
  induction xs generalizing rx with
  | nil => simp [resolveAll_nil] at hx; simpa [hx] using hy
  | cons u rest ih =>
    obtain ⟨r, rs', h1, h2, rfl⟩ := resolveAll_ok_cons hx
    simpa using resolveAll_cons_ok h1 (ih h2)

theorem resolveAll_mem {b : String} {us rs : List String} {u r : String}
    (h : resolveAll b us = Except.ok rs) (hu : u ∈ us)
    (hn : normalize_url b u = Except.ok r) : r ∈ rs := by
  induction us generalizing rs with
  | nil => cases hu
  | cons u0 rest ih =>
    obtain ⟨r0, rs', h1, h2, rfl⟩ := resolveAll_ok_cons h
    rcases List.mem_cons.mp hu with rfl | hmem
    · rw [hn] at h1
      exact (Except.ok.injEq _ _).mp h1 ▸ List.mem_cons_self _ _
    · exact List.mem_cons_of_mem _ (ih h2 hmem)

theorem classifyStep1_filter {b : String} {us fs is : List String}
    (h : classifyStep1 b us = Except.ok (fs, is)) :
    ∃ rs, resolveAll b us = Except.ok rs ∧
      fs = rs.filter (fun r => hasAnyExt r fontExts) ∧
      is = rs.filter (fun r => !hasAnyExt r fontExts) := by
  induction us generalizing fs is with
  | nil =>
    have hp : (fs, is) = (([] : List String), ([] : List String)) :=
      (Except.ok.inj h).symm
    refine ⟨[], rfl, ?_, ?_⟩
    · simpa using congrArg (fun q => q.1) hp
    · simpa using congrArg (fun q => q.2) hp
  | cons u rest ih =>
    cases h1 : normalize_url b u with
    | error e => simp [classifyStep1, h1, exbind_err] at h
    | ok r =>
      cases h2 : classifyStep1 b rest with
      | error e => simp [classifyStep1, h1, h2, exbind_ok, exbind_err] at h
      | ok p =>
        have h2' : classifyStep1 b rest = Except.ok (p.1, p.2) := by simpa using h2
        obtain ⟨rs', hr', hf', hi'⟩ := ih h2'
        by_cases hfont : hasAnyExt r fontExts
        · have hfi : r :: p.1 = fs ∧ p.2 = is := by
            simpa [classifyStep1, h1, h2, exbind_ok, expure, hfont] using h
          exact ⟨r :: rs', resolveAll_cons_ok h1 hr',
            by simp [← hfi.1, hf', List.filter_cons, hfont],
            by simp [← hfi.2, hi', List.filter_cons, hfont]⟩
        · have hfi : p.1 = fs ∧ r :: p.2 = is := by
            by_cases himg : hasAnyExt r imageExts <;>
              simpa [classifyStep1, h1, h2, exbind_ok, expure, hfont, himg] using h
          exact ⟨r :: rs', resolveAll_cons_ok h1 hr',
            by simp [← hfi.1, hf', List.filter_cons, hfont],
            by simp [← hfi.2, hi', List.filter_cons, hfont]⟩

theorem parseCssCore_ok {base c : String} {res : CssAssets}
    (h : parseCssCore base c = Except.ok res) :
    ∃ f1 i1 f2, classifyStep1 base (findUrls c) = Except.ok (f1, i1) ∧
      resolveAll base ((fontFaceBlocks c).flatMap findUrls) = Except.ok f2 ∧
      res = ⟨none, (f1 ++ f2).dedup, i1.dedup⟩ := by
  cases h1 : classifyStep1 base (findUrls c) with
  | error e => simp [parseCssCore, h1, exbind_err] at h
  | ok p =>
    cases h2 : resolveAll base ((fontFaceBlocks c).flatMap findUrls) with
    | error e => simp [parseCssCore, h1, h2, exbind_ok, exbind_err, exmap_err] at h
    | ok f2 =>
      refine ⟨p.1, p.2, f2, ?_, ?_, ?_⟩
      · simp
      · rfl
      · simp [parseCssCore, h1, h2, exbind_ok, exmap_ok] at h
        exact h.symm

theorem lookup_dictInsert (d : List (String × String)) (k v : String) :
    (dictInsert d k v).lookup k = some v := by
  induction d with
  | nil => simp [dictInsert, List.lookup]
  | cons kv rest ih =>
    by_cases hk : kv.1 = k
    · simp [dictInsert, hk, List.lookup]
    · have hne : (k == kv.1) = false := by
        simp only [beq_eq_false_iff_ne, ne_eq]
        exact fun hh => hk hh.symm
      simp [dictInsert, hk, List.lookup, hne, ih]

/-! ## Claims -/

/-- Claim C2, counterexample: `extract_assets` called on the malformed
URL `http://[` propagates the URL-parse fault (`ValueError` raised by
the URL splitter, embedded as `.error`) instead of returning a
structured result, so not every operation captures every failure. -/
theorem C2_counterexample :
    extract_assets "http://[" [] = Except.error "Invalid IPv6 URL" := rfl

/-- Claim C2 (amended): failures of the network fetch are captured and
re-expressed as data — `fetch_page` turns any fetch outcome into a
structured success/failure payload and `parse_css_for_assets` turns a
fetch failure into `{error, fonts: [], images: []}` — but URL-parse
faults on malformed URL inputs are not caught outside `fetch_page` and
`download_asset`: `extract_assets` propagates them to the caller. -/
theorem C2_boundary_error_handling :
    (∀ (e url : String),
        fetch_page (Except.error e) url = FetchPageResult.failure e url)
    ∧ (∀ (r : HttpResponse) (url : String),
        fetch_page (Except.ok r) url =
          FetchPageResult.success r.text r.status_code r.headers r.url)
    ∧ (∀ (cssUrl base e : String), get_base_url cssUrl = Except.ok base →
        parse_css_for_assets (Except.error e) cssUrl none =
          Except.ok ⟨some e, [], []⟩)
    ∧ (∀ (url e : String) (doc : List Node), get_base_url url = Except.error e →
        extract_assets url doc = Except.error e) := by
  refine ⟨fun e url => rfl, fun r url => rfl, ?_, ?_⟩
  · intro cssUrl base e h
    simp [parse_css_for_assets, h, exbind_ok, expure]
  · intro url e doc h
    simp [extract_assets, h, exbind_err]

/-- Claim C2, witness for the amended theorem. -/
theorem C2_boundary_error_handling_witness :
    (get_base_url "http://e.com/a.css" = Except.ok "http://e.com"
      ∧ get_base_url "http://[" = Except.error "Invalid IPv6 URL")
    ∧ fetch_page (Except.error "boom") "http://e.com" =
        FetchPageResult.failure "boom" "http://e.com"
    ∧ parse_css_for_assets (Except.error "boom") "http://e.com/a.css" none =
        Except.ok ⟨some "boom", [], []⟩
    ∧ extract_assets "http://[" [] = Except.error "Invalid IPv6 URL" :=
  ⟨⟨rfl, rfl⟩, C2_boundary_error_handling.1 "boom" "http://e.com",
    C2_boundary_error_handling.2.2.1 "http://e.com/a.css" "http://e.com" "boom" rfl,
    C2_boundary_error_handling.2.2.2 "http://[" "Invalid IPv6 URL" [] rfl⟩

/-- Claim C3, counterexample: a `<meta>` carrying `name="a"`,
`property="b"` and `content="c"` is recorded under the name value `a`,
not under the property value `b` — the claim says property wins, the
code's `if/elif` makes name win. -/
theorem C3_counterexample :
    analyze_page_structure_metadata metaBothDoc = [("a", "c")] ∧
      (analyze_page_structure_metadata metaBothDoc).lookup "b" = none :=
  ⟨rfl, rfl⟩

/-- Claim C3 (amended): for every meta element carrying a `content`
attribute together with both a `name` and a `property` attribute, the
content is recorded under the `name` attribute's value (name wins over
property when both are present). -/
theorem C3_meta_name_wins :
    ∀ (md attrs : List (String × String)) (n p c : String),
      attrs.lookup "name" = some n → attrs.lookup "content" = some c →
      attrs.lookup "property" = some p →
      metaStep md attrs = dictInsert md n c ∧
        (metaStep md attrs).lookup n = some c := by
  intro md attrs n p c hn hc hp
  refine ⟨by simp [metaStep, hn, hc], ?_⟩
  simp [metaStep, hn, hc, lookup_dictInsert]

/-- Claim C3, witness for the amended theorem. -/
theorem C3_meta_name_wins_witness :
    ([("name", "a"), ("property", "b"), ("content", "c")].lookup "name" = some "a"
      ∧ [("name", "a"), ("property", "b"), ("content", "c")].lookup "content" = some "c"
      ∧ [("name", "a"), ("property", "b"), ("content", "c")].lookup "property" = some "b")
    ∧ metaStep [] [("name", "a"), ("property", "b"), ("content", "c")] =
        dictInsert [] "a" "c"
    ∧ (metaStep [] [("name", "a"), ("property", "b"), ("content", "c")]).lookup "a" =
        some "c" := by
  refine ⟨⟨rfl, rfl, rfl⟩, ?_, ?_⟩
  · exact (C3_meta_name_wins []
      [("name", "a"), ("property", "b"), ("content", "c")] "a" "b" "c" rfl rfl rfl).1
  · exact (C3_meta_name_wins []
      [("name", "a"), ("property", "b"), ("content", "c")] "a" "b" "c" rfl rfl rfl).2

/-- Claim C5, counterexample: the resolved URL `http://e.com/a.woff.png`
has the image filename extension `.png` (not a font extension), so the
claim places it in images and not fonts; step 1 of the code classifies
by substring containment, finds `.woff` inside the name, and places it
in fonts and not images. -/
theorem C5_counterexample :
    parse_css_for_assets (Except.error "unused") "http://e.com/s.css"
        (some "url(a.woff.png)") =
      Except.ok ⟨none, ["http://e.com/a.woff.png"], []⟩
    ∧ lastExt "http://e.com/a.woff.png" = ".png"
    ∧ ".png" ∉ fontExts ∧ ".png" ∈ imageExts := by
  refine ⟨rfl, rfl, by decide, by decide⟩

/-- Claim C5 (amended): in step 1 of `parse_css_for_assets`, every
resolved `url(...)` reference is classified by substring containment on
the lower-cased resolved URL, not by its filename extension: it is
placed in fonts iff the lowered URL contains one of
`.woff/.woff2/.ttf/.eot/.otf` anywhere, and placed in images otherwise
(whether or not an image extension occurs); no URL from step 1 is
placed in both lists. -/
theorem C5_step1_substring_classification :
    ∀ (base : String) (us fs is : List String),
      classifyStep1 base us = Except.ok (fs, is) →
      ∃ rs, resolveAll base us = Except.ok rs ∧
        fs = rs.filter (fun r => hasAnyExt r fontExts) ∧
        is = rs.filter (fun r => !hasAnyExt r fontExts) ∧
        (∀ r ∈ fs, hasAnyExt r fontExts = true) ∧
        (∀ r ∈ is, hasAnyExt r fontExts = false) ∧
        (∀ r, ¬(r ∈ fs ∧ r ∈ is)) := by
  intro base us fs is h
  obtain ⟨rs, hr, hf, hi⟩ := classifyStep1_filter h
  have hmf : ∀ r, r ∈ fs → hasAnyExt r fontExts = true := by
    intro r hrf
    have hrf' : r ∈ rs.filter (fun r => hasAnyExt r fontExts) := by
      rw [← hf]; exact hrf
    exact (List.mem_filter.mp hrf').2
  have hmi : ∀ r, r ∈ is → hasAnyExt r fontExts = false := by
    intro r hri
    have hri' : r ∈ rs.filter (fun r => !hasAnyExt r fontExts) := by
      rw [← hi]; exact hri
    simpa [Bool.not_eq_true'] using (List.mem_filter.mp hri').2
  refine ⟨rs, hr, hf, hi, hmf, hmi, ?_⟩
  intro r ⟨hrf, hri⟩
  have h1 := hmf r hrf
  have h2 := hmi r hri
  simp [h1] at h2

/-- Claim C5, witness for the amended theorem. -/
theorem C5_step1_substring_classification_witness :
    classifyStep1 "http://e.com" ["x.png", "f.woff"] =
      Except.ok (["http://e.com/f.woff"], ["http://e.com/x.png"])
    ∧ ∃ rs, resolveAll "http://e.com" ["x.png", "f.woff"] = Except.ok rs ∧
        ["http://e.com/f.woff"] = rs.filter (fun r => hasAnyExt r fontExts) ∧
        ["http://e.com/x.png"] = rs.filter (fun r => !hasAnyExt r fontExts) ∧
        (∀ r ∈ ["http://e.com/f.woff"], hasAnyExt r fontExts = true) ∧
        (∀ r ∈ ["http://e.com/x.png"], hasAnyExt r fontExts = false) ∧
        (∀ r, ¬(r ∈ ["http://e.com/f.woff"] ∧ r ∈ ["http://e.com/x.png"])) :=
  ⟨rfl, C5_step1_substring_classification "http://e.com" ["x.png", "f.woff"]
    ["http://e.com/f.woff"] ["http://e.com/x.png"] rfl⟩

/-- Claim C4, counterexample: inside the font-face block of
`cssFontFaceImage` the reference `a.woff.png` carries the image
filename extension `.png`, yet the resolved URL lands only in fonts —
the images list is empty — because step 1's substring test finds
`.woff` first.  The claim's BOTH-lists promise fails here. -/
theorem C4_counterexample :
    fontFaceBlocks cssFontFaceImage = [cssFontFaceImage]
    ∧ findUrls cssFontFaceImage = ["a.woff.png"]
    ∧ normalize_url "http://e.com" "a.woff.png" =
        Except.ok "http://e.com/a.woff.png"
    ∧ lastExt "http://e.com/a.woff.png" = ".png" ∧ ".png" ∈ imageExts
    ∧ Except.map CssAssets.fonts
        (parse_css_for_assets (Except.error "unused") "http://e.com/s.css"
          (some cssFontFaceImage)) = Except.ok ["http://e.com/a.woff.png"]
    ∧ Except.map CssAssets.images
        (parse_css_for_assets (Except.error "unused") "http://e.com/s.css"
          (some cssFontFaceImage)) = Except.ok [] :=
  ⟨rfl, rfl, rfl, rfl, by decide, rfl, rfl⟩

/-- Claim C4 (amended): a `url(...)` reference found inside an
`@font-face` block is resolved into the fonts list; when the full-text
scan of step 1 also finds that reference and its resolved URL contains
an image extension but no font extension substring, the same resolved
URL is also placed in the images list, hence it appears in BOTH lists —
in particular `@font-face\x7bsrc:url(x.png)\x7d` resolves `x.png` into
both fonts and images (see the witness). -/
theorem C4_fontface_image_in_both :
    ∀ (base content : String) (res : CssAssets) (u blk r : String),
      parseCssCore base content = Except.ok res →
      u ∈ findUrls content →
      blk ∈ fontFaceBlocks content →
      u ∈ findUrls blk →
      normalize_url base u = Except.ok r →
      hasAnyExt r imageExts = true →
      hasAnyExt r fontExts = false →
      r ∈ res.fonts ∧ r ∈ res.images := by
  intro base content res u blk r hcore hu hblk hublk hn himg hfont
  obtain ⟨f1, i1, f2, hstep, hff, hres⟩ := parseCssCore_ok hcore
  obtain ⟨rs, hrs, hf1, hi1⟩ := classifyStep1_filter hstep
  have hrmem : r ∈ rs := resolveAll_mem hrs hu hn
  constructor
  · have huflat : u ∈ (fontFaceBlocks content).flatMap findUrls :=
      List.mem_flatMap.mpr ⟨blk, hblk, hublk⟩
    have : r ∈ f2 := resolveAll_mem hff huflat hn
    rw [hres]
    exact List.mem_dedup.mpr (List.mem_append.mpr (Or.inr this))
  · have : r ∈ i1 := by
      rw [hi1]
      exact List.mem_filter.mpr ⟨hrmem, by simp [hfont]⟩
    rw [hres]
    exact List.mem_dedup.mpr this

/-- Claim C4, witness: the spec's concrete example
`@font-face\x7bsrc:url(x.png)\x7d` puts the resolved `x.png` in both
fonts and images. -/
theorem C4_fontface_image_in_both_witness :
    (parseCssCore "http://e.com" cssFontFacePng =
        Except.ok ⟨none, ["http://e.com/x.png"], ["http://e.com/x.png"]⟩
      ∧ "x.png" ∈ findUrls cssFontFacePng
      ∧ cssFontFacePng ∈ fontFaceBlocks cssFontFacePng
      ∧ normalize_url "http://e.com" "x.png" = Except.ok "http://e.com/x.png"
      ∧ hasAnyExt "http://e.com/x.png" imageExts = true
      ∧ hasAnyExt "http://e.com/x.png" fontExts = false)
    ∧ ("http://e.com/x.png" ∈
        (CssAssets.fonts ⟨none, ["http://e.com/x.png"], ["http://e.com/x.png"]⟩)
      ∧ "http://e.com/x.png" ∈
        (CssAssets.images ⟨none, ["http://e.com/x.png"], ["http://e.com/x.png"]⟩)) :=
  ⟨⟨rfl, by decide, by decide, rfl, by decide, by decide⟩,
    C4_fontface_image_in_both "http://e.com" cssFontFacePng
      ⟨none, ["http://e.com/x.png"], ["http://e.com/x.png"]⟩ "x.png" cssFontFacePng
      "http://e.com/x.png" rfl (by decide) (by decide) (by decide) rfl (by decide)
      (by decide)⟩

theorem extract_assets_mk {url base : String} {doc : List Node}
    {c j ia ib f v o : List String}
    (hb : get_base_url url = Except.ok base)
    (hc : resolveAll base (cssHrefs doc) = Except.ok c)
    (hj : resolveAll base (scriptSrcs doc) = Except.ok j)
    (hia : resolveAll base (imgRefs doc) = Except.ok ia)
    (hib : resolveAll base (styleRefs doc) = Except.ok ib)
    (hf : resolveAll base (preloadFontHrefs doc) = Except.ok f)
    (hv : resolveAll base (videoSrcs doc) = Except.ok v)
    (ho : resolveAll base (iframeSrcs doc) = Except.ok o) :
    extract_assets url doc = Except.ok ⟨c, j, ia ++ ib, f, v, o⟩ := by
  simp [extract_assets, hb, hc, hj, hia, hib, hf, hv, ho, exbind_ok, expure]

theorem extract_assets_ok {url : String} {doc : List Node} {b : AssetBucket}
    (h : extract_assets url doc = Except.ok b) :
    ∃ base c j ia ib f v o, get_base_url url = Except.ok base ∧
      resolveAll base (cssHrefs doc) = Except.ok c ∧
      resolveAll base (scriptSrcs doc) = Except.ok j ∧
      resolveAll base (imgRefs doc) = Except.ok ia ∧
      resolveAll base (styleRefs doc) = Except.ok ib ∧
      resolveAll base (preloadFontHrefs doc) = Except.ok f ∧
      resolveAll base (videoSrcs doc) = Except.ok v ∧
      resolveAll base (iframeSrcs doc) = Except.ok o ∧
      b = ⟨c, j, ia ++ ib, f, v, o⟩ := by
  cases h0 : get_base_url url with
  | error e => simp [extract_assets, h0, exbind_err] at h
  | ok base =>
  cases h1 : resolveAll base (cssHrefs doc) with
  | error e => simp [extract_assets, h0, h1, exbind_ok, exbind_err] at h
  | ok c =>
  cases h2 : resolveAll base (scriptSrcs doc) with
  | error e => simp [extract_assets, h0, h1, h2, exbind_ok, exbind_err] at h
  | ok j =>
  cases h3 : resolveAll base (imgRefs doc) with
  | error e => simp [extract_assets, h0, h1, h2, h3, exbind_ok, exbind_err] at h
  | ok ia =>
  cases h4 : resolveAll base (styleRefs doc) with
  | error e => simp [extract_assets, h0, h1, h2, h3, h4, exbind_ok, exbind_err] at h
  | ok ib =>
  cases h5 : resolveAll base (preloadFontHrefs doc) with
  | error e => simp [extract_assets, h0, h1, h2, h3, h4, h5, exbind_ok, exbind_err] at h
  | ok f =>
  cases h6 : resolveAll base (videoSrcs doc) with
  | error e =>
    simp [extract_assets, h0, h1, h2, h3, h4, h5, h6, exbind_ok, exbind_err] at h
  | ok v =>
  cases h7 : resolveAll base (iframeSrcs doc) with
  | error e =>
    simp [extract_assets, h0, h1, h2, h3, h4, h5, h6, h7, exbind_ok, exbind_err,
      exmap_err] at h
  | ok o =>
    refine ⟨base, c, j, ia, ib, f, v, o, rfl, h1, h2, h3, h4, h5, h6, h7, ?_⟩
    have := extract_assets_mk h0 h1 h2 h3 h4 h5 h6 h7
    rw [this] at h
    exact (Except.ok.inj h).symm

theorem allElemsL_append (d1 d2 : List Node) :
    allElemsL (d1 ++ d2) = allElemsL d1 ++ allElemsL d2 := by
  induction d1 with
  | nil => simp [allElemsL]
  | cons n rest ih => simp [allElemsL, ih]

theorem cssHrefs_append (d1 d2 : List Node) :
    cssHrefs (d1 ++ d2) = cssHrefs d1 ++ cssHrefs d2 := by
  simp [cssHrefs, allElemsL_append, List.filter_append, List.filterMap_append]

theorem scriptSrcs_append (d1 d2 : List Node) :
    scriptSrcs (d1 ++ d2) = scriptSrcs d1 ++ scriptSrcs d2 := by
  simp [scriptSrcs, allElemsL_append, List.filter_append, List.filterMap_append]

theorem imgRefs_append (d1 d2 : List Node) :
    imgRefs (d1 ++ d2) = imgRefs d1 ++ imgRefs d2 := by
  simp [imgRefs, allElemsL_append, List.filter_append, List.flatMap_append]

theorem styleRefs_append (d1 d2 : List Node) :
    styleRefs (d1 ++ d2) = styleRefs d1 ++ styleRefs d2 := by
  simp [styleRefs, allElemsL_append, List.filter_append, List.flatMap_append]

theorem preloadFontHrefs_append (d1 d2 : List Node) :
    preloadFontHrefs (d1 ++ d2) = preloadFontHrefs d1 ++ preloadFontHrefs d2 := by
  simp [preloadFontHrefs, allElemsL_append, List.filter_append, List.filterMap_append]

theorem videoSrcs_append (d1 d2 : List Node) :
    videoSrcs (d1 ++ d2) = videoSrcs d1 ++ videoSrcs d2 := by
  simp [videoSrcs, allElemsL_append, List.filter_append, List.flatMap_append]

theorem iframeSrcs_append (d1 d2 : List Node) :
    iframeSrcs (d1 ++ d2) = iframeSrcs d1 ++ iframeSrcs d2 := by
  simp [iframeSrcs, allElemsL_append, List.filter_append, List.filterMap_append]

/-- Claim C6: the fonts and images lists returned by
`parse_css_for_assets` never contain a duplicate string (they pass
through a set), whereas the category lists of `extract_assets` keep
every discovered reference: over a concatenation of markup the
multiplicity of every URL in every category is additive, so duplicates
are never removed from markup-derived buckets. -/
theorem C6_dedup_asymmetry :
    (∀ (ft : Except String String) (cssUrl : String) (c : Option String)
        (r : CssAssets), parse_css_for_assets ft cssUrl c = Except.ok r →
        r.fonts.Nodup ∧ r.images.Nodup)
    ∧ (∀ (url : String) (d1 d2 : List Node) (b1 b2 : AssetBucket),
        extract_assets url d1 = Except.ok b1 →
        extract_assets url d2 = Except.ok b2 →
        ∃ b, extract_assets url (d1 ++ d2) = Except.ok b ∧
          (∀ s, b.css.count s = b1.css.count s + b2.css.count s) ∧
          (∀ s, b.javascript.count s = b1.javascript.count s + b2.javascript.count s) ∧
          (∀ s, b.images.count s = b1.images.count s + b2.images.count s) ∧
          (∀ s, b.fonts.count s = b1.fonts.count s + b2.fonts.count s) ∧
          (∀ s, b.videos.count s = b1.videos.count s + b2.videos.count s) ∧
          (∀ s, b.other.count s = b1.other.count s + b2.other.count s)) := by
  constructor
  · intro ft cssUrl c r h
    cases h0 : get_base_url cssUrl with
    | error e => simp [parse_css_for_assets, h0, exbind_err] at h
    | ok base =>
      have hcore : ∀ s : String, parseCssCore base s = Except.ok r →
          r.fonts.Nodup ∧ r.images.Nodup := by
        intro s hs
        obtain ⟨f1, i1, f2, _, _, hres⟩ := parseCssCore_ok hs
        rw [hres]
        exact ⟨List.nodup_dedup _, List.nodup_dedup _⟩
      cases c with
      | some s =>
        simp [parse_css_for_assets, h0, exbind_ok] at h
        exact hcore s h
      | none =>
        cases ft with
        | error e =>
          simp [parse_css_for_assets, h0, exbind_ok, expure] at h
          simp [← h]
        | ok s =>
          simp [parse_css_for_assets, h0, exbind_ok] at h
          exact hcore s h
  · intro url d1 d2 b1 b2 h1 h2
    obtain ⟨base, c1, j1, ia1, ib1, f1, v1, o1, hb, hc1, hj1, hia1, hib1, hf1, hv1,
      ho1, hbeq1⟩ := extract_assets_ok h1
    obtain ⟨base', c2, j2, ia2, ib2, f2, v2, o2, hb', hc2, hj2, hia2, hib2, hf2, hv2,
      ho2, hbeq2⟩ := extract_assets_ok h2
    rw [hb] at hb'
    have hbb : base' = base := (Except.ok.inj hb').symm
    subst hbb
    have hmk := extract_assets_mk hb
      (cssHrefs_append d1 d2 ▸ resolveAll_append hc1 hc2)
      (scriptSrcs_append d1 d2 ▸ resolveAll_append hj1 hj2)
      (imgRefs_append d1 d2 ▸ resolveAll_append hia1 hia2)
      (styleRefs_append d1 d2 ▸ resolveAll_append hib1 hib2)
      (preloadFontHrefs_append d1 d2 ▸ resolveAll_append hf1 hf2)
      (videoSrcs_append d1 d2 ▸ resolveAll_append hv1 hv2)
      (iframeSrcs_append d1 d2 ▸ resolveAll_append ho1 ho2)
    refine ⟨_, hmk, ?_, ?_, ?_, ?_, ?_, ?_⟩ <;>
      (intro s; subst hbeq1; subst hbeq2; simp [List.count_append]; try omega)

/-- Claim C6, witness: a stylesheet mentioning `a.png` twice comes back
deduplicated, while doubling a markup document doubles the multiplicity
of `http://e.com/a.png` in the images bucket (1 becomes 2). -/
theorem C6_dedup_asymmetry_witness :
    (parse_css_for_assets (Except.error "unused") "http://e.com/s.css"
        (some "url(a.png)url(a.png)") =
      Except.ok ⟨none, [], ["http://e.com/a.png"]⟩
      ∧ extract_assets "http://e.com" imgPngDoc =
        Except.ok ⟨[], [], ["http://e.com/a.png"], [], [], []⟩)
    ∧ (CssAssets.fonts ⟨none, [], ["http://e.com/a.png"]⟩).Nodup
    ∧ (CssAssets.images ⟨none, [], ["http://e.com/a.png"]⟩).Nodup
    ∧ ∃ b, extract_assets "http://e.com" (imgPngDoc ++ imgPngDoc) = Except.ok b ∧
        ∀ s, b.images.count s =
          (AssetBucket.images ⟨[], [], ["http://e.com/a.png"], [], [], []⟩).count s +
            (AssetBucket.images ⟨[], [], ["http://e.com/a.png"], [], [], []⟩).count s := by
  have h1 := (C6_dedup_asymmetry.1 (Except.error "unused") "http://e.com/s.css"
    (some "url(a.png)url(a.png)") ⟨none, [], ["http://e.com/a.png"]⟩ rfl)
  have h2 := (C6_dedup_asymmetry.2 "http://e.com" imgPngDoc imgPngDoc
    ⟨[], [], ["http://e.com/a.png"], [], [], []⟩
    ⟨[], [], ["http://e.com/a.png"], [], [], []⟩ rfl rfl)
  obtain ⟨b, hmk, _, _, himg, _⟩ := h2
  exact ⟨⟨rfl, rfl⟩, h1.1, h1.2, b, hmk, himg⟩

/-- Claim C9: the dictionary returned by `extract_assets` always binds
exactly the six keys css, javascript, images, fonts, videos, other, in
that order, each to a list; and markup contributing to no category
(with a parseable base URL) yields the same six keys each bound to the
empty list. -/
theorem C9_six_keys :
    (∀ (url : String) (doc : List Node) (b : AssetBucket),
        extract_assets url doc = Except.ok b →
        (bucketPairs b).map Prod.fst =
          ["css", "javascript", "images", "fonts", "videos", "other"])
    ∧ (∀ (url base : String) (doc : List Node), get_base_url url = Except.ok base →
        cssHrefs doc = [] → scriptSrcs doc = [] → imgRefs doc = [] →
        styleRefs doc = [] → preloadFontHrefs doc = [] → videoSrcs doc = [] →
        iframeSrcs doc = [] →
        extract_assets url doc = Except.ok ⟨[], [], [], [], [], []⟩) := by
  constructor
  · intro url doc b _
    simp [bucketPairs]
  · intro url base doc hb h1 h2 h3 h4 h5 h6 h7
    have k1 : resolveAll base (cssHrefs doc) = Except.ok [] := by
      rw [h1]; exact resolveAll_nil base
    have k2 : resolveAll base (scriptSrcs doc) = Except.ok [] := by
      rw [h2]; exact resolveAll_nil base
    have k3 : resolveAll base (imgRefs doc) = Except.ok [] := by
      rw [h3]; exact resolveAll_nil base
    have k4 : resolveAll base (styleRefs doc) = Except.ok [] := by
      rw [h4]; exact resolveAll_nil base
    have k5 : resolveAll base (preloadFontHrefs doc) = Except.ok [] := by
      rw [h5]; exact resolveAll_nil base
    have k6 : resolveAll base (videoSrcs doc) = Except.ok [] := by
      rw [h6]; exact resolveAll_nil base
    have k7 : resolveAll base (iframeSrcs doc) = Except.ok [] := by
      rw [h7]; exact resolveAll_nil base
    simpa using extract_assets_mk hb k1 k2 k3 k4 k5 k6 k7

/-- Claim C9, witness: a document with one paragraph and one anchor
matches no extraction rule and yields the six empty lists. -/
theorem C9_six_keys_witness :
    (extract_assets "http://e.com"
        [Node.elem "p" [] [Node.text "hi"], Node.elem "a" [("href", "/x")] []] =
      Except.ok ⟨[], [], [], [], [], []⟩
      ∧ (bucketPairs ⟨[], [], [], [], [], []⟩).map Prod.fst =
        ["css", "javascript", "images", "fonts", "videos", "other"])
    ∧ get_base_url "http://e.com" = Except.ok "http://e.com" := by
  refine ⟨⟨?_, ?_⟩, rfl⟩
  · exact C9_six_keys.2 "http://e.com" "http://e.com"
      [Node.elem "p" [] [Node.text "hi"], Node.elem "a" [("href", "/x")] []]
      rfl rfl rfl rfl rfl rfl rfl rfl
  · exact C9_six_keys.1 "http://e.com"
      [Node.elem "p" [] [Node.text "hi"], Node.elem "a" [("href", "/x")] []]
      ⟨[], [], [], [], [], []⟩
      (C9_six_keys.2 "http://e.com" "http://e.com"
        [Node.elem "p" [] [Node.text "hi"], Node.elem "a" [("href", "/x")] []]
        rfl rfl rfl rfl rfl rfl rfl rfl)

theorem crawl_depth_eq_max {fetch : String → Except String (List Node)}
    {base : String} {maxD fuel : Nat} {url : String} {st : CrawlState}
    {doc : List Node} (hf : fetch url = Except.ok doc) (hv : url ∉ st.visited) :
    crawl fetch base maxD (fuel + 1) url maxD st =
      ⟨st.visited ++ [url], st.sitemap ++ [SitemapEntry.page url (titleOf doc) []],
        st.fetchLog ++ [url]⟩ := by
  simp [crawl, hv, hf]

/-- Claim C1, counterexample: on a seed page with three same-origin
links and one cross-origin link, `create_site_map` with `max_depth = 1`
returns exactly one entry (the seed) — but that entry's `links` array
is empty, not of length 3: the link loop only runs when
`depth < max_depth`, and the seed is already at depth 1. -/
theorem C1_counterexample :
    create_site_map fetchThreeOne "http://s.com/" 1 =
      Except.ok ⟨"http://s.com", 1, [SitemapEntry.page "http://s.com/" "Seed" []]⟩
    ∧ ¬ (∃ ls : List SiteLink,
          create_site_map fetchThreeOne "http://s.com/" 1 =
            Except.ok ⟨"http://s.com", 1,
              [SitemapEntry.page "http://s.com/" "Seed" ls]⟩
          ∧ ls.length = 3) := by
  have h0 : create_site_map fetchThreeOne "http://s.com/" 1 =
      Except.ok ⟨"http://s.com", 1, [SitemapEntry.page "http://s.com/" "Seed" []]⟩ :=
    rfl
  refine ⟨h0, ?_⟩
  rintro ⟨ls, h, hlen⟩
  rw [h0] at h
  simp at h
  rw [h] at hlen
  simp at hlen

/-- Claim C1 (amended): `create_site_map` with `max_depth = 1` on any
page that fetches successfully (three same-origin links and one
cross-origin link included) returns exactly one SitemapEntry — the
seed — and that entry's `links` array is empty, because links are only
enumerated when `depth < max_depth`. -/
theorem C1_maxdepth_one_no_links :
    ∀ (fetch : String → Except String (List Node)) (url base : String)
      (doc : List Node),
      get_base_url url = Except.ok base → fetch url = Except.ok doc →
      create_site_map fetch url 1 =
        Except.ok ⟨base, 1, [SitemapEntry.page url (titleOf doc) []]⟩ := by
  intro fetch url base doc hb hf
  have hc := @crawl_depth_eq_max fetch base 1 1 url ⟨[], [], []⟩ doc hf (by simp)
  simp [create_site_map, hb, exbind_ok, expure, hc]

/-- Claim C1, witness for the amended theorem, at the three-plus-one
link seed page. -/
theorem C1_maxdepth_one_no_links_witness :
    (get_base_url "http://s.com/" = Except.ok "http://s.com"
      ∧ fetchThreeOne "http://s.com/" = Except.ok seedThreeOne)
    ∧ create_site_map fetchThreeOne "http://s.com/" 1 =
        Except.ok ⟨"http://s.com", 1,
          [SitemapEntry.page "http://s.com/" (titleOf seedThreeOne) []]⟩ :=
  ⟨⟨rfl, rfl⟩,
    C1_maxdepth_one_no_links fetchThreeOne "http://s.com/" "http://s.com"
      seedThreeOne rfl rfl⟩

/-- Claim C10: a same-origin link is appended to the current entry's
links before the recursive visit and without consulting the visited
set: crawling the two-page site in `fetchTwice` to depth 3, the seed's
entry lists `http://s.com/a` twice (its second occurrence was already
visited when appended), the `/a` page's entry lists the already-visited
`http://s.com/a` again, and yet the sitemap holds exactly one entry per
URL. -/
theorem C10_links_recorded_before_visited_check :
    create_site_map fetchTwice "http://s.com/" 3 =
      Except.ok ⟨"http://s.com", 2,
        [SitemapEntry.page "http://s.com/" "S page"
          [⟨"http://s.com/a", "one"⟩, ⟨"http://s.com/a", "two"⟩],
         SitemapEntry.page "http://s.com/a" "A page"
          [⟨"http://s.com/a", "self"⟩]]⟩
    ∧ ((entryLinks (SitemapEntry.page "http://s.com/" "S page"
          [⟨"http://s.com/a", "one"⟩, ⟨"http://s.com/a", "two"⟩])).map
        SiteLink.url).count "http://s.com/a" = 2
    ∧ ((entryLinks (SitemapEntry.page "http://s.com/a" "A page"
          [⟨"http://s.com/a", "self"⟩])).map SiteLink.url).count
        "http://s.com/a" = 1
    ∧ (([SitemapEntry.page "http://s.com/" "S page"
          [⟨"http://s.com/a", "one"⟩, ⟨"http://s.com/a", "two"⟩],
         SitemapEntry.page "http://s.com/a" "A page"
          [⟨"http://s.com/a", "self"⟩]].map entryUrl).count "http://s.com/a" = 1
      ∧ ([SitemapEntry.page "http://s.com/" "S page"
            [⟨"http://s.com/a", "one"⟩, ⟨"http://s.com/a", "two"⟩],
          SitemapEntry.page "http://s.com/a" "A page"
            [⟨"http://s.com/a", "self"⟩]].map entryUrl).Nodup) := by
  refine ⟨rfl, by decide, by decide, by decide, by decide⟩

theorem crawlStep_refl (st : CrawlState) : CrawlStep st st :=
  ⟨List.Subset.refl _, [], [], by simp, by simp, List.nil_sublist _, id⟩

theorem crawlStep_trans {a b c : CrawlState} (h1 : CrawlStep a b)
    (h2 : CrawlStep b c) : CrawlStep a c := by
  obtain ⟨hv1, d1, m1, hl1, hm1, hs1, hi1⟩ := h1
  obtain ⟨hv2, d2, m2, hl2, hm2, hs2, hi2⟩ := h2
  refine ⟨List.Subset.trans hv1 hv2, d1 ++ d2, m1 ++ m2, ?_, ?_, ?_,
    fun hi => hi2 (hi1 hi)⟩
  · rw [hl2, hl1, List.append_assoc]
  · rw [hm2, hm1, List.append_assoc]
  · rw [List.filterMap_append]
    exact List.Sublist.append hs1 hs2

theorem crawlLinks_crawlStep {recur : String → CrawlState → CrawlState}
    (hrec : ∀ u s, CrawlStep s (recur u s)) (base : String) :
    ∀ (anchors : List (String × String)) (links : List SiteLink) (st : CrawlState),
      CrawlStep st (crawlLinks recur base anchors links st).2.1 := by
  intro anchors
  induction anchors with
  | nil => intro links st; exact crawlStep_refl st
  | cons a rest ih =>
    intro links st
    obtain ⟨href, rawText⟩ := a
    by_cases hskip : skipHref href
    · simpa [crawlLinks, hskip] using ih links st
    · cases hn : normalize_url base href with
      | error e => simp [crawlLinks, hskip, hn]; exact crawlStep_refl st
      | ok full =>
        cases hgb : get_base_url full with
        | error e => simp [crawlLinks, hskip, hn, hgb]; exact crawlStep_refl st
        | ok fb =>
          by_cases hsame : fb = base
          · simp only [crawlLinks, hskip, hn, hgb, if_pos hsame, Bool.false_eq_true,
              if_false]
            exact crawlStep_trans (hrec full st) (ih _ (recur full st))
          · simpa [crawlLinks, hskip, hn, hgb, hsame] using ih links st

theorem snoc_inv {st : CrawlState} {url : String} (hv : url ∉ st.visited)
    (hi : CrawlInv st) :
    CrawlInv ⟨st.visited ++ [url], st.sitemap, st.fetchLog ++ [url]⟩ := by
  obtain ⟨hnd, hsub⟩ := hi
  constructor
  · rw [List.nodup_append]
    exact ⟨hnd, List.nodup_singleton url,
      by simpa [List.disjoint_singleton] using fun hc => hv (hsub url hc)⟩
  · intro u hu
    rcases List.mem_append.mp hu with h | h
    · exact List.mem_append.mpr (Or.inl (hsub u h))
    · exact List.mem_append.mpr (Or.inr h)

theorem crawl_crawlStep (fetch : String → Except String (List Node)) (base : String)
    (maxD : Nat) :
    ∀ (fuel : Nat) (url : String) (depth : Nat) (st : CrawlState),
      CrawlStep st (crawl fetch base maxD fuel url depth st) := by
  intro fuel
  induction fuel with
  | zero => intro url depth st; exact crawlStep_refl st
  | succ fuel ih =>
    intro url depth st
    by_cases hguard : depth > maxD ∨ url ∈ st.visited
    · simpa [crawl, hguard] using crawlStep_refl st
    · have hv : url ∉ st.visited := fun hc => hguard (Or.inr hc)
      cases hf : fetch url with
      | error e =>
        simp only [crawl, if_neg hguard, hf]
        refine ⟨List.subset_append_left _ _, [url], [SitemapEntry.failed url e],
          rfl, rfl, ?_, ?_⟩
        · simp [pageEntryUrl]
        · intro hi
          exact snoc_inv hv hi
      | ok doc =>
        by_cases hlt : depth < maxD
        · rcases hcl : crawlLinks
              (fun u s => crawl fetch base maxD fuel u (depth + 1) s) base
              (anchorsOf doc) []
              ⟨st.visited ++ [url], [], st.fetchLog ++ [url]⟩ with ⟨links, stC, exc⟩
          have hrec : ∀ u s, CrawlStep s
              (crawl fetch base maxD fuel u (depth + 1) s) :=
            fun u s => ih u (depth + 1) s
          have hL := crawlLinks_crawlStep hrec base (anchorsOf doc) []
            ⟨st.visited ++ [url], [], st.fetchLog ++ [url]⟩
          rw [hcl] at hL
          obtain ⟨hvL, dlog, dmap, hlL, hmL, hsL, hiL⟩ := hL
          have hlL' : stC.fetchLog = (st.fetchLog ++ [url]) ++ dlog := hlL
          have hmL' : stC.sitemap = dmap := by
            have : stC.sitemap = [] ++ dmap := hmL
            simpa using this
          have hvL' : st.visited ++ [url] ⊆ stC.visited := hvL
          simp only [crawl, if_neg hguard, hf, if_pos hlt, hcl]
          cases exc with
          | none =>
            refine ⟨List.Subset.trans (List.subset_append_left _ _) hvL', [url] ++ dlog,
              [SitemapEntry.page url (titleOf doc) links] ++ dmap, ?_, ?_, ?_, ?_⟩
            · show stC.fetchLog = st.fetchLog ++ ([url] ++ dlog)
              rw [hlL', List.append_assoc]
            · show st.sitemap ++ [SitemapEntry.page url (titleOf doc) links] ++
                  stC.sitemap ++ [] =
                st.sitemap ++ ([SitemapEntry.page url (titleOf doc) links] ++ dmap)
              rw [hmL']
              simp [List.append_assoc]
            · rw [List.filterMap_append]
              simpa [pageEntryUrl] using List.Sublist.cons₂ url hsL
            · intro hi
              have hi0 := snoc_inv hv hi
              have hiC := hiL ⟨hi0.1, hi0.2⟩
              exact ⟨hiC.1, hiC.2⟩
          | some e =>
            refine ⟨List.Subset.trans (List.subset_append_left _ _) hvL', [url] ++ dlog,
              [SitemapEntry.page url (titleOf doc) links] ++ dmap ++
                [SitemapEntry.failed url e], ?_, ?_, ?_, ?_⟩
            · show stC.fetchLog = st.fetchLog ++ ([url] ++ dlog)
              rw [hlL', List.append_assoc]
            · show st.sitemap ++ [SitemapEntry.page url (titleOf doc) links] ++
                  stC.sitemap ++ [SitemapEntry.failed url e] =
                st.sitemap ++ ([SitemapEntry.page url (titleOf doc) links] ++ dmap ++
                  [SitemapEntry.failed url e])
              rw [hmL']
              simp [List.append_assoc]
            · rw [List.filterMap_append, List.filterMap_append]
              simpa [pageEntryUrl] using List.Sublist.cons₂ url hsL
            · intro hi
              have hi0 := snoc_inv hv hi
              have hiC := hiL ⟨hi0.1, hi0.2⟩
              exact ⟨hiC.1, hiC.2⟩
        · simp only [crawl, if_neg hguard, hf, if_neg hlt]
          refine ⟨List.subset_append_left _ _, [url],
            [SitemapEntry.page url (titleOf doc) []], rfl, rfl, ?_, ?_⟩
          · simp [pageEntryUrl]
          · intro hi
            exact snoc_inv hv hi

/-- Claim C7, counterexample: a URL can contribute TWO sitemap entries.
The seed's only link is the malformed `http://[`; its page entry is
appended first (line 337), then resolving the link raises, the `except`
catches it and appends an error entry for the same URL (line 360), so
the seed URL has two entries even though it was fetched once. -/
theorem C7_counterexample :
    create_site_map fetchBadLink "http://s.com/" 2 =
      Except.ok ⟨"http://s.com", 2,
        [SitemapEntry.page "http://s.com/" "Bad" [],
         SitemapEntry.failed "http://s.com/" "Invalid IPv6 URL"]⟩
    ∧ (([SitemapEntry.page "http://s.com/" "Bad" [],
         SitemapEntry.failed "http://s.com/" "Invalid IPv6 URL"].map entryUrl).count
        "http://s.com/" = 2
      ∧ ¬ (([SitemapEntry.page "http://s.com/" "Bad" [],
          SitemapEntry.failed "http://s.com/" "Invalid IPv6 URL"].map entryUrl).count
          "http://s.com/" ≤ 1)) :=
  ⟨rfl, by decide, by decide⟩

/-- Claim C7 (amended): within one `create_site_map` call every URL is
fetched at most once — the crawl inserts the URL into the visited set
before fetching and returns immediately for a URL already in the set —
and every URL contributes at most one successful page entry; only the
pairing of a page entry with a subsequent error entry for the same URL
(when link processing raises after the page entry was appended, see the
counterexample) can give a URL a second entry.  Formally, from a fresh
state the crawl's fetch log is duplicate-free and the page-entry URLs
of the sitemap are, in order, a duplicate-free sub-sequence of it. -/
theorem C7_at_most_once :
    ∀ (fetch : String → Except String (List Node)) (base : String)
      (maxD fuel depth : Nat) (url : String),
      (crawl fetch base maxD fuel url depth ⟨[], [], []⟩).fetchLog.Nodup
      ∧ ((crawl fetch base maxD fuel url depth ⟨[], [], []⟩).sitemap.filterMap
          pageEntryUrl).Sublist
          (crawl fetch base maxD fuel url depth ⟨[], [], []⟩).fetchLog
      ∧ ((crawl fetch base maxD fuel url depth ⟨[], [], []⟩).sitemap.filterMap
          pageEntryUrl).Nodup := by
  intro fetch base maxD fuel depth url
  obtain ⟨hvis, dlog, dmap, hlog, hmap, hsub, hinv⟩ :=
    crawl_crawlStep fetch base maxD fuel url depth ⟨[], [], []⟩
  have hinv0 : CrawlInv ⟨[], [], []⟩ := ⟨List.nodup_nil, by simp⟩
  have hnd : (crawl fetch base maxD fuel url depth ⟨[], [], []⟩).fetchLog.Nodup :=
    (hinv hinv0).1
  have hlog' : (crawl fetch base maxD fuel url depth ⟨[], [], []⟩).fetchLog = dlog := by
    simpa using hlog
  have hmap' : (crawl fetch base maxD fuel url depth ⟨[], [], []⟩).sitemap = dmap := by
    simpa using hmap
  refine ⟨hnd, ?_, ?_⟩
  · rw [hlog', hmap']
    exact hsub
  · rw [hmap']
    refine List.Nodup.sublist hsub ?_
    rw [hlog'] at hnd
    exact hnd

theorem crawlLinks_congr {r1 r2 : String → CrawlState → CrawlState}
    (h : ∀ u s, r1 u s = r2 u s) (base : String) :
    ∀ (anchors : List (String × String)) (links : List SiteLink) (st : CrawlState),
      crawlLinks r1 base anchors links st = crawlLinks r2 base anchors links st := by
  intro anchors
  induction anchors with
  | nil => intro links st; rfl
  | cons a rest ih =>
    intro links st
    obtain ⟨href, rawText⟩ := a
    by_cases hskip : skipHref href
    · simp [crawlLinks, hskip, ih]
    · cases hn : normalize_url base href with
      | error e => simp [crawlLinks, hskip, hn]
      | ok full =>
        cases hgb : get_base_url full with
        | error e => simp [crawlLinks, hskip, hn, hgb]
        | ok fb =>
          by_cases hsame : fb = base
          · simp [crawlLinks, hskip, hn, hgb, hsame, h full st, ih]
          · simp [crawlLinks, hskip, hn, hgb, hsame, ih]

theorem crawl_fuel_bound (fetch : String → Except String (List Node)) (base : String)
    (maxD : Nat) :
    ∀ (n depth : Nat), maxD + 1 - depth = n → ∀ f, n ≤ f → ∀ (url : String)
      (st : CrawlState),
      crawl fetch base maxD f url depth st = crawl fetch base maxD n url depth st := by
  intro n
  induction n with
  | zero =>
    intro depth hd f hf url st
    have hdep : maxD < depth := by omega
    cases f with
    | zero => rfl
    | succ g =>
      simp [crawl, hdep]
  | succ k ih =>
    intro depth hd f hf url st
    cases f with
    | zero => omega
    | succ g =>
      have hg : k ≤ g := by omega
      have hrec : ∀ (u : String) (s : CrawlState),
          crawl fetch base maxD g u (depth + 1) s =
            crawl fetch base maxD k u (depth + 1) s := by
        intro u s
        exact ih (depth + 1) (by omega) g hg u s
      simp only [crawl]
      simp only [crawlLinks_congr hrec base]

/-- Claim C8: for every `max_depth ≥ 1` and every (finite) page graph
given as a fetch oracle, the recursive crawl terminates: rendered over
the fuelled embedding, any two fuel budgets at least `max_depth + 1 -
depth` (the number of depth levels left before the `depth > max_depth`
guard cuts the branch) compute the same final state, so the recursion
is exhausted before any sufficient budget is; and every non-skipped
call adds its (previously unvisited) URL to the visited set, while a
call whose depth exceeds the bound or whose URL was already visited
returns at once. -/
theorem C8_crawl_terminates :
    ∀ (fetch : String → Except String (List Node)) (base : String)
      (maxD depth f1 f2 : Nat) (url : String) (st : CrawlState),
      1 ≤ maxD → maxD + 1 - depth ≤ f1 → maxD + 1 - depth ≤ f2 →
      (crawl fetch base maxD f1 url depth st = crawl fetch base maxD f2 url depth st
        ∧ (¬ (depth > maxD ∨ url ∈ st.visited) →
            url ∈ (crawl fetch base maxD f1 url depth st).visited)
        ∧ ((depth > maxD ∨ url ∈ st.visited) →
            crawl fetch base maxD f1 url depth st = st)) := by
  intro fetch base maxD depth f1 f2 url st hmax h1 h2
  refine ⟨?_, ?_, ?_⟩
  · rw [crawl_fuel_bound fetch base maxD (maxD + 1 - depth) depth rfl f1 h1,
      crawl_fuel_bound fetch base maxD (maxD + 1 - depth) depth rfl f2 h2]
  · intro hguard
    have hdep : ¬ maxD < depth := fun hc => hguard (Or.inl hc)
    have hf1 : 1 ≤ f1 := by omega
    obtain ⟨g, rfl⟩ : ∃ g, f1 = g + 1 := ⟨f1 - 1, by omega⟩
    obtain ⟨hvis, _, _, _, _, _, _⟩ :=
      crawl_crawlStep fetch base maxD (g + 1) url depth st
    have hvis' : st.visited ++ [url] ⊆
        (crawl fetch base maxD (g + 1) url depth st).visited := by
      cases hfu : fetch url with
      | error e =>
        simp [crawl, hguard, hfu]
      | ok doc =>
        by_cases hlt : depth < maxD
        · rcases hcl : crawlLinks
              (fun u s => crawl fetch base maxD g u (depth + 1) s) base
              (anchorsOf doc) []
              ⟨st.visited ++ [url], [], st.fetchLog ++ [url]⟩ with ⟨links, stC, exc⟩
          have hL := crawlLinks_crawlStep
            (fun u s => crawl_crawlStep fetch base maxD g u (depth + 1) s) base
            (anchorsOf doc) [] ⟨st.visited ++ [url], [], st.fetchLog ++ [url]⟩
          rw [hcl] at hL
          have hvL : st.visited ++ [url] ⊆ stC.visited := hL.1
          simp only [crawl, if_neg hguard, hfu, if_pos hlt, hcl]
          cases exc <;> exact hvL
        · simp [crawl, hguard, hfu, hlt]
    exact hvis' (List.mem_append.mpr (Or.inr (List.mem_singleton.mpr rfl)))
  · intro hguard
    cases f1 with
    | zero => rfl
    | succ g => simp [crawl, hguard]

/-- Claim C8, witness: two ample budgets compute the same crawl of a
graph whose every fetch fails, at `max_depth = 1`. -/
theorem C8_crawl_terminates_witness :
    (1 ≤ 1 ∧ 1 + 1 - 1 ≤ 5 ∧ 1 + 1 - 1 ≤ 9)
    ∧ crawl (fun _ => Except.error "down") "http://s.com" 1 5 "http://s.com/" 1
        ⟨[], [], []⟩ =
      crawl (fun _ => Except.error "down") "http://s.com" 1 9 "http://s.com/" 1
        ⟨[], [], []⟩
    ∧ "http://s.com/" ∈
      (crawl (fun _ => Except.error "down") "http://s.com" 1 5 "http://s.com/" 1
        ⟨[], [], []⟩).visited :=
  ⟨⟨by decide, by decide, by decide⟩,
    (C8_crawl_terminates (fun _ => Except.error "down") "http://s.com" 1 1 5 9
      "http://s.com/" ⟨[], [], []⟩ (by decide) (by decide) (by decide)).1,
    (C8_crawl_terminates (fun _ => Except.error "down") "http://s.com" 1 1 5 9
      "http://s.com/" ⟨[], [], []⟩ (by decide) (by decide) (by decide)).2.1
      (by simp)⟩
